import Mathlib

/-!
Shallow embedding of `optimize.py` (nutrition-blender): a linear-equality
feasibility model over continuous per-product "grams used" variables.

Numbers are modelled as exact rationals `ℚ`.  Python `dict`s keyed by product
name are modelled as functions `String → ℚ` built by repeated update (last
assignment wins, as in Python); every lookup performed by the code is of a key
previously assigned, so the default value of the empty dict is never observed.
-/

namespace NutritionBlender

/-- `class NutritionVector` (optimize.py lines 9-20). -/
@[ext]
structure NutritionVector where
  fat : ℚ
  carbs : ℚ
  protein : ℚ
deriving DecidableEq

/-- `NutritionVector.calories` (line 17): `9 * fat + 4 * carbs + 4 * protein`. -/
def NutritionVector.calories (v : NutritionVector) : ℚ :=
  9 * v.fat + 4 * v.carbs + 4 * v.protein

/-- `NutritionVector.scale` (lines 19-20): every field multiplied by `factor`. -/
def NutritionVector.scale (v : NutritionVector) (factor : ℚ) : NutritionVector :=
  ⟨v.fat * factor, v.carbs * factor, v.protein * factor⟩

/-- `class Product` (lines 23-28): the constructed object. `nutrition` is the
per-gram vector stored by `__init__`. -/
@[ext]
structure Product where
  name : String
  serving_size : ℚ
  servings_available : ℚ
  nutrition : NutritionVector
deriving DecidableEq

/-- `Product.__init__` (lines 24-28): stores
`nutrition = NutritionVector(**nutrients).scale(1/serving_size)`.
In Python, `1/serving_size` raises `ZeroDivisionError` exactly when
`serving_size == 0`; that abort is modelled as `none`.  No other validation is
performed by the constructor. -/
def Product.init (name : String) (serving_size servings_available : ℚ)
    (nutrients : NutritionVector) : Option Product :=
  if serving_size = 0 then none
  else some ⟨name, serving_size, servings_available,
    nutrients.scale (1 / serving_size)⟩

/-- A Python dict populated by the loop `for p in products: d[p.name] = f p`
(lines 41-45): later assignments overwrite earlier ones.  Keys never assigned
map to the (unobserved) default `0`. -/
def buildDict (products : List Product) (f : Product → ℚ) : String → ℚ :=
  products.foldl (fun d p => Function.update d p.name (f p)) fun _ => 0

/-- The key list of `LpVariable.dicts('Mixture', [p.name for p in products], 0)`
(line 47): a Python dict keeps one entry per distinct key, in first-insertion
order. -/
def uniqueNames (names : List String) : List String :=
  names.foldl (fun acc n => if n ∈ acc then acc else acc ++ [n]) []

/-- An LP decision variable as created by `LpVariable(name, lowBound)`:
continuous (it ranges over `ℚ` here), with optional domain bounds.
`LpVariable.dicts('Mixture', names, 0)` gives `lowBound = some 0`,
`upBound = none`. -/
structure LpVar where
  name : String
  lowBound : Option ℚ
  upBound : Option ℚ
deriving DecidableEq

/-- A linear expression: a list of (variable name, coefficient) terms, as built
by `lpSum([coef * var for ...])`. -/
abbrev LpExpr := List (String × ℚ)

/-- `pulp.value` of a linear expression under a variable assignment. -/
def LpExpr.value (e : LpExpr) (a : String → ℚ) : ℚ :=
  (e.map fun t => t.2 * a t.1).sum

/-- Constraint sense: `<=`, `==`, `>=`. -/
inductive LpSense
  | le
  | eq
  | ge
deriving DecidableEq

/-- A linear constraint `terms (sense) rhs` as added by `prob += expr == c`
or `prob += var <= c` / `prob += var >= c`. -/
structure LpConstraint where
  terms : LpExpr
  sense : LpSense
  rhs : ℚ
deriving DecidableEq

/-- Satisfaction of one constraint by an assignment. -/
def LpConstraint.Holds (c : LpConstraint) (a : String → ℚ) : Prop :=
  (c.sense = .le → c.terms.value a ≤ c.rhs) ∧
  (c.sense = .eq → c.terms.value a = c.rhs) ∧
  (c.sense = .ge → c.rhs ≤ c.terms.value a)

instance (c : LpConstraint) (a : String → ℚ) : Decidable (c.Holds a) := by
  unfold LpConstraint.Holds; infer_instance

/-- An assignment lies in a variable's intrinsic domain. -/
def LpVar.InDomain (v : LpVar) (a : String → ℚ) : Prop :=
  v.lowBound.elim True (fun lb => lb ≤ a v.name) ∧
    v.upBound.elim True fun ub => a v.name ≤ ub

instance optionElimDecidable (o : Option ℚ) (t : Prop) (p : ℚ → Prop)
    [Decidable t] [DecidablePred p] : Decidable (o.elim t p) :=
  match o with
  | none => inferInstanceAs (Decidable t)
  | some x => inferInstanceAs (Decidable (p x))

instance (v : LpVar) (a : String → ℚ) : Decidable (v.InDomain a) := by
  unfold LpVar.InDomain; infer_instance

/-- The `LpProblem` built by `optimize` before `prob.solve()`: variables and
constraints in insertion order.  (No objective term is ever added, so the
nominal `LpMaximize` direction is irrelevant to the model's content.) -/
structure LpModel where
  vars : List LpVar
  constraints : List LpConstraint

/-- An assignment satisfies the model: every constraint holds and every
variable is within its intrinsic domain. -/
def LpModel.Satisfied (m : LpModel) (a : String → ℚ) : Prop :=
  (∀ c ∈ m.constraints, c.Holds a) ∧ ∀ v ∈ m.vars, v.InDomain a

instance (m : LpModel) (a : String → ℚ) : Decidable (m.Satisfied a) := by
  unfold LpModel.Satisfied; infer_instance

/-- The model admits a satisfying assignment. -/
def LpModel.Feasible (m : LpModel) : Prop :=
  ∃ a, m.Satisfied a

/-- `fat_sum` (line 49): `lpSum([fat_coefs[p.name] * mixture_vars[p.name] for p
in products])`. -/
def fat_sum (products : List Product) : LpExpr :=
  products.map fun p => (p.name, buildDict products (fun q => q.nutrition.fat) p.name)

/-- `carb_sum` (line 50). -/
def carb_sum (products : List Product) : LpExpr :=
  products.map fun p => (p.name, buildDict products (fun q => q.nutrition.carbs) p.name)

/-- `protein_sum` (line 51). -/
def protein_sum (products : List Product) : LpExpr :=
  products.map fun p => (p.name, buildDict products (fun q => q.nutrition.protein) p.name)

/-- `grams_available` (line 45): dict of `serving_size * servings_available`
per product name. -/
def grams_available (products : List Product) : String → ℚ :=
  buildDict products fun p => p.serving_size * p.servings_available

/-- Model construction, `optimize` lines 36-62: one variable per distinct
product name with lower bound 0 and no upper bound; the three macro equality
constraints; then, per product, the upper-bound constraint
`var <= grams_available[name]` and the lower-bound constraint `var >= 0`. -/
def buildModel (products : List Product) (target_macros : NutritionVector) : LpModel :=
  { vars := (uniqueNames (products.map Product.name)).map fun n => ⟨n, some 0, none⟩
    constraints :=
      [⟨fat_sum products, .eq, target_macros.fat⟩,
       ⟨carb_sum products, .eq, target_macros.carbs⟩,
       ⟨protein_sum products, .eq, target_macros.protein⟩] ++
      products.flatMap fun p =>
        [⟨[(p.name, 1)], .le, grams_available products p.name⟩,
         ⟨[(p.name, 1)], .ge, 0⟩] }

/-- `pulp.LpStatus` codes. -/
inductive LpStatusCode
  | NotSolved
  | Optimal
  | Infeasible
  | Unbounded
  | Undefined
deriving DecidableEq

/-- What `prob.solve()` leaves behind: `prob.status` and the `varValue` of each
variable (read through `mixture_vars[p.name].varValue`). -/
structure SolveResult where
  status : LpStatusCode
  assignment : String → ℚ

/-- One record of the per-product loop (lines 67-79). -/
structure BlendRecord where
  product : String
  grams : ℚ
  servings : ℚ
  fat : ℚ
  carbs : ℚ
  protein : ℚ
  calories : ℚ
deriving DecidableEq

/-- Lines 69-79 for a single product: `grams = varValue`, `servings = grams /
serving_size`, the three macros and calories from `nutrition.scale(grams)`. -/
def buildRecord (p : Product) (grams : ℚ) : BlendRecord :=
  { product := p.name
    grams := grams
    servings := grams / p.serving_size
    fat := (p.nutrition.scale grams).fat
    carbs := (p.nutrition.scale grams).carbs
    protein := (p.nutrition.scale grams).protein
    calories := (p.nutrition.scale grams).calories }

/-- The full `records` list (lines 67-79): one record per product, in input
order, read from the assignment unconditionally. -/
def buildRecords (products : List Product) (a : String → ℚ) : List BlendRecord :=
  products.map fun p => buildRecord p (a p.name)

/-- Round-half-to-even at integer precision, the rounding used by
`DataFrame.round` (numpy rounding). -/
def roundHalfEven (q : ℚ) : ℤ :=
  if q - ⌊q⌋ < 1 / 2 then ⌊q⌋
  else if 1 / 2 < q - ⌊q⌋ then ⌊q⌋ + 1
  else if Even ⌊q⌋ then ⌊q⌋ else ⌊q⌋ + 1

/-- `round(2)`: round to 2 decimal places. -/
def round2 (q : ℚ) : ℚ :=
  (roundHalfEven (q * 100) : ℚ) / 100

/-- `df.round(2)` applied to one row: every numeric column rounded. -/
def roundRecord (r : BlendRecord) : BlendRecord :=
  { product := r.product
    grams := round2 r.grams
    servings := round2 r.servings
    fat := round2 r.fat
    carbs := round2 r.carbs
    protein := round2 r.protein
    calories := round2 r.calories }

/-- Line 84: `df_filtered = df[lambda x: x['Grams'] > 0].round(2)` — keep rows
with exact grams strictly positive, then round what remains. -/
def filteredReport (records : List BlendRecord) : List BlendRecord :=
  (records.filter fun r => 0 < r.grams).map roundRecord

/-- `summary_nutrition` (line 89): `NutritionVector(*map(pulp.value, [fat_sum,
carb_sum, protein_sum]))`. -/
def summaryNutrition (products : List Product) (a : String → ℚ) : NutritionVector :=
  ⟨(fat_sum products).value a, (carb_sum products).value a,
    (protein_sum products).value a⟩

/-- Everything `optimize` computes after the solve call. -/
structure OptimizeOutput where
  status : LpStatusCode
  records : List BlendRecord
  report : List BlendRecord
  summary : NutritionVector
  targeted : NutritionVector

/-- `optimize` (lines 35-97), with the external solver as a parameter: build
the model, solve, then — with no branch on the returned status — read every
variable's value, build the per-product records, the filtered report and the
summary. -/
def optimize (solver : LpModel → SolveResult) (products : List Product)
    (target_macros : NutritionVector) : OptimizeOutput :=
  let prob := buildModel products target_macros
  let res := solver prob
  let records := buildRecords products res.assignment
  { status := res.status
    records := records
    report := filteredReport records
    summary := summaryNutrition products res.assignment
    targeted := target_macros }

/-! ### Sample data used by witnesses (Scenario A of the spec, plus a
zero-availability product) -/

/-- Scenario A product: per-gram nutrition (0.1, 0.2, 0.05), 50 g servings,
10 servings available. -/
def sampleA : Product := ⟨"alpha", 50, 10, ⟨1/10, 1/5, 1/20⟩⟩

/-- A product with zero servings available. -/
def sampleZ : Product := ⟨"zeta", 10, 0, ⟨1, 1, 1⟩⟩

/-- Scenario A target. -/
def sampleTarget : NutritionVector := ⟨5, 10, 5/2⟩

/-- The assignment the solver returns for Scenario A: 50 g of `alpha`,
nothing else. -/
def sampleAssignment : String → ℚ := fun n => if n = "alpha" then 50 else 0

/-- Three products for the report-filter witness. -/
def tinyProducts : List Product :=
  [sampleA, ⟨"beta", 1, 1, ⟨0, 0, 0⟩⟩, sampleZ]

/-- An assignment with ordinary, tiny and zero grams. -/
def tinyAssignment : String → ℚ := fun n =>
  if n = "alpha" then 50 else if n = "beta" then 1/400 else 0

/-! ### Helper lemmas -/

/-- Folding dict updates over products none of which carry the key `k` leaves
the dict unchanged at `k`. -/
theorem foldl_update_of_not_mem (d : String → ℚ) (l : List Product)
    (f : Product → ℚ) (k : String) (h : k ∉ l.map Product.name) :
    (l.foldl (fun d p => Function.update d p.name (f p)) d) k = d k := by
  induction l generalizing d with
  | nil => rfl
  | cons q rest ih =>
    simp only [List.map_cons, List.mem_cons, not_or] at h
    rw [List.foldl_cons, ih _ h.2, Function.update_noteq h.1]

theorem foldl_update_eq (d : String → ℚ) (l : List Product) (f : Product → ℚ)
    (h : (l.map Product.name).Nodup) (p : Product) (hp : p ∈ l) :
    (l.foldl (fun d p => Function.update d p.name (f p)) d) p.name = f p := by
  induction l generalizing d with
  | nil => cases hp
  | cons q rest ih =>
    rw [List.map_cons, List.nodup_cons] at h
    rw [List.foldl_cons]
    rcases List.mem_cons.mp hp with hpq | hpr
    · subst hpq
      rw [foldl_update_of_not_mem _ _ _ _ h.1, Function.update_same]
    · exact ih _ h.2 hpr

/-- Under distinct names, the dict built from the product loop maps each
product's name to its own datum. -/
theorem buildDict_eq (products : List Product) (f : Product → ℚ)
    (h : (products.map Product.name).Nodup) (p : Product) (hp : p ∈ products) :
    buildDict products f p.name = f p :=
  foldl_update_eq _ products f h p hp

theorem uniqueNames_aux (l : List String) :
    ∀ acc : List String, (∀ n ∈ l, n ∉ acc) → l.Nodup →
      l.foldl (fun acc n => if n ∈ acc then acc else acc ++ [n]) acc = acc ++ l := by
  induction l with
  | nil => simp
  | cons q rest ih =>
    intro acc hacc hnd
    rw [List.nodup_cons] at hnd
    rw [List.foldl_cons, if_neg (hacc q (by simp))]
    rw [ih (acc ++ [q]) ?_ hnd.2]
    · simp
    · intro n hn
      simp only [List.mem_append, List.mem_singleton, not_or]
      exact ⟨hacc n (by simp [hn]), fun e => hnd.1 (e ▸ hn)⟩

/-- Under distinct names, `uniqueNames` keeps the list as is. -/
theorem uniqueNames_of_nodup (l : List String) (h : l.Nodup) :
    uniqueNames l = l := by
  simpa using uniqueNames_aux l [] (by simp) h

/-- Under distinct names the three macro expressions carry, per product, that
product's own per-gram coefficient. -/
theorem fat_sum_eq (products : List Product)
    (h : (products.map Product.name).Nodup) :
    fat_sum products = products.map fun p => (p.name, p.nutrition.fat) :=
  List.map_congr_left fun p hp => by rw [buildDict_eq products _ h p hp]

theorem carb_sum_eq (products : List Product)
    (h : (products.map Product.name).Nodup) :
    carb_sum products = products.map fun p => (p.name, p.nutrition.carbs) :=
  List.map_congr_left fun p hp => by rw [buildDict_eq products _ h p hp]

theorem protein_sum_eq (products : List Product)
    (h : (products.map Product.name).Nodup) :
    protein_sum products = products.map fun p => (p.name, p.nutrition.protein) :=
  List.map_congr_left fun p hp => by rw [buildDict_eq products _ h p hp]

/-- Under distinct names, the availability dict maps each product's name to its
own `serving_size * servings_available`. -/
theorem grams_available_eq (products : List Product)
    (h : (products.map Product.name).Nodup) (p : Product) (hp : p ∈ products) :
    grams_available products p.name = p.serving_size * p.servings_available :=
  buildDict_eq products _ h p hp

theorem flatMap_congr_left {α β : Type} {l : List α} {f g : α → List β}
    (h : ∀ a ∈ l, f a = g a) : l.flatMap f = l.flatMap g := by
  induction l with
  | nil => rfl
  | cons q rest ih =>
    rw [List.flatMap_cons, List.flatMap_cons, h q (by simp),
      ih fun a ha => h a (by simp [ha])]

/-- Explicit form of the built model when product names are distinct. -/
theorem buildModel_eq (products : List Product) (target : NutritionVector)
    (h : (products.map Product.name).Nodup) :
    buildModel products target =
      { vars := products.map fun p => ⟨p.name, some 0, none⟩
        constraints :=
          [⟨products.map fun p => (p.name, p.nutrition.fat), .eq, target.fat⟩,
           ⟨products.map fun p => (p.name, p.nutrition.carbs), .eq, target.carbs⟩,
           ⟨products.map fun p => (p.name, p.nutrition.protein), .eq, target.protein⟩] ++
          products.flatMap fun p =>
            [⟨[(p.name, 1)], .le, p.serving_size * p.servings_available⟩,
             ⟨[(p.name, 1)], .ge, 0⟩] } := by
  unfold buildModel
  rw [fat_sum_eq products h, carb_sum_eq products h, protein_sum_eq products h,
    uniqueNames_of_nodup _ h, List.map_map]
  congr 1
  exact congrArg (fun x => _ ++ x) <| flatMap_congr_left fun p hp => by
    rw [grams_available_eq products h p hp]

theorem value_map_name (products : List Product) (f : Product → ℚ)
    (a : String → ℚ) :
    LpExpr.value (products.map fun p => (p.name, f p)) a =
      (products.map fun p => a p.name * f p).sum := by
  unfold LpExpr.value
  rw [List.map_map]
  exact congrArg List.sum <| List.map_congr_left fun p _ => mul_comm _ _

theorem value_single (n : String) (a : String → ℚ) :
    LpExpr.value [(n, 1)] a = a n := by
  simp [LpExpr.value]

theorem holds_le_iff (e : LpExpr) (r : ℚ) (a : String → ℚ) :
    (⟨e, .le, r⟩ : LpConstraint).Holds a ↔ e.value a ≤ r := by
  unfold LpConstraint.Holds
  simp

theorem holds_eq_iff (e : LpExpr) (r : ℚ) (a : String → ℚ) :
    (⟨e, .eq, r⟩ : LpConstraint).Holds a ↔ e.value a = r := by
  unfold LpConstraint.Holds
  simp

theorem holds_ge_iff (e : LpExpr) (r : ℚ) (a : String → ℚ) :
    (⟨e, .ge, r⟩ : LpConstraint).Holds a ↔ r ≤ e.value a := by
  unfold LpConstraint.Holds
  simp

/-- The central characterization: under distinct product names, an assignment
satisfies the built model exactly when the three achieved macro sums equal the
targets and every product's grams lie in `[0, serving_size *
servings_available]`. -/
theorem satisfied_iff (products : List Product) (target : NutritionVector)
    (a : String → ℚ) (h : (products.map Product.name).Nodup) :
    (buildModel products target).Satisfied a ↔
      ((products.map fun p => a p.name * p.nutrition.fat).sum = target.fat ∧
       (products.map fun p => a p.name * p.nutrition.carbs).sum = target.carbs ∧
       (products.map fun p => a p.name * p.nutrition.protein).sum = target.protein ∧
       ∀ p ∈ products,
         0 ≤ a p.name ∧ a p.name ≤ p.serving_size * p.servings_available) := by
  unfold LpModel.Satisfied
  rw [buildModel_eq products target h]
  constructor
  · rintro ⟨hc, -⟩
    refine ⟨?_, ?_, ?_, fun p hp => ⟨?_, ?_⟩⟩
    · have := (hc ⟨products.map fun p => (p.name, p.nutrition.fat), .eq,
        target.fat⟩ (by simp)).2.1 rfl
      rwa [value_map_name] at this
    · have := (hc ⟨products.map fun p => (p.name, p.nutrition.carbs), .eq,
        target.carbs⟩ (by simp)).2.1 rfl
      rwa [value_map_name] at this
    · have := (hc ⟨products.map fun p => (p.name, p.nutrition.protein), .eq,
        target.protein⟩ (by simp)).2.1 rfl
      rwa [value_map_name] at this
    · have := (hc ⟨[(p.name, 1)], .ge, 0⟩
        (List.mem_append_right _ (List.mem_flatMap.mpr ⟨p, hp, by simp⟩))).2.2 rfl
      rwa [value_single] at this
    · have := (hc ⟨[(p.name, 1)], .le, p.serving_size * p.servings_available⟩
        (List.mem_append_right _ (List.mem_flatMap.mpr ⟨p, hp, by simp⟩))).1 rfl
      rwa [value_single] at this
  · rintro ⟨h1, h2, h3, hb⟩
    refine ⟨fun c hc => ?_, fun v hv => ?_⟩
    · rcases List.mem_append.mp hc with hm | hm
      · simp only [List.mem_cons, List.not_mem_nil, or_false] at hm
        rcases hm with rfl | rfl | rfl
        · rw [holds_eq_iff, value_map_name]
          exact h1
        · rw [holds_eq_iff, value_map_name]
          exact h2
        · rw [holds_eq_iff, value_map_name]
          exact h3
      · obtain ⟨p, hp, hcp⟩ := List.mem_flatMap.mp hm
        simp only [List.mem_cons, List.not_mem_nil, or_false] at hcp
        rcases hcp with rfl | rfl
        · rw [holds_le_iff, value_single]
          exact (hb p hp).2
        · rw [holds_ge_iff, value_single]
          exact (hb p hp).1
    · obtain ⟨p, hp, rfl⟩ := List.mem_map.mp hv
      exact ⟨(hb p hp).1, trivial⟩

/-- Rounding to two decimals sends any `q` with `0 ≤ q < 1/200` to `0`. -/
theorem round2_eq_zero (q : ℚ) (h0 : 0 ≤ q) (h : q < 1/200) : round2 q = 0 := by
  have hf : ⌊q * 100⌋ = 0 := by
    rw [Int.floor_eq_zero_iff, Set.mem_Ico]
    exact ⟨by positivity, by linarith⟩
  unfold round2 roundHalfEven
  rw [hf, if_pos (by push_cast; linarith)]
  norm_num

/-! ### Claim theorems -/

/-- C8: for every `NutritionVector`, `calories` equals
`9 * fat + 4 * carbs + 4 * protein` exactly; it is a pure function of the
three fields (it is a Lean function of `v` alone) and has no error
conditions (it is total). -/
theorem calories_formula (v : NutritionVector) :
    v.calories = 9 * v.fat + 4 * v.carbs + 4 * v.protein := rfl

/-- C9: `calories` is linear under `scale`: for every vector `v` and every
factor `k` — including zero and negative `k` —
`(v.scale k).calories = k * v.calories`. -/
theorem calories_linear (v : NutritionVector) (k : ℚ) :
    (v.scale k).calories = k * v.calories := by
  cases v
  simp only [NutritionVector.scale, NutritionVector.calories]
  ring

/-- C6: for every `Product` built by the constructor with `serving_size > 0`,
scaling its stored per-gram nutrition vector by `serving_size` reconstructs
the per-serving nutrition input, field by field. -/
theorem nutrition_roundtrip (name : String) (s sa : ℚ)
    (nutrients : NutritionVector) (p : Product) (hs : 0 < s)
    (hp : Product.init name s sa nutrients = some p) :
    p.nutrition.scale s = nutrients := by
  unfold Product.init at hp
  rw [if_neg (ne_of_gt hs)] at hp
  obtain rfl := Option.some.inj hp
  cases nutrients with
  | mk f c pr =>
    ext
    all_goals
      simp only [NutritionVector.scale]
      field_simp

/-- Witness for C6 at a concrete product. -/
theorem nutrition_roundtrip_witness :
    (0 : ℚ) < 2 ∧
    Product.init "oats" 2 7 ⟨3, 4, 5⟩ = some ⟨"oats", 2, 7, ⟨3/2, 2, 5/2⟩⟩ ∧
    (⟨"oats", 2, 7, ⟨3/2, 2, 5/2⟩⟩ : Product).nutrition.scale 2 = ⟨3, 4, 5⟩ :=
  ⟨by norm_num,
    by norm_num [Product.init, NutritionVector.scale],
    nutrition_roundtrip "oats" 2 7 ⟨3, 4, 5⟩ _ (by norm_num)
      (by norm_num [Product.init, NutritionVector.scale])⟩

/-- C4 counterexample: constructing a `Product` with the negative
`serving_size = -1` does NOT fail — it succeeds and stores the degenerate
(sign-flipped) per-gram vector. -/
theorem product_init_negative_succeeds :
    Product.init "oil" (-1) 1 ⟨1, 2, 3⟩ = some ⟨"oil", -1, 1, ⟨-1, -2, -3⟩⟩ := by
  norm_num [Product.init, NutritionVector.scale]

/-- C4 amended: only `serving_size = 0` makes construction fail (the
`ZeroDivisionError` from `1/serving_size`); for every nonzero
`serving_size` — negative included — construction succeeds and stores the
per-serving vector scaled by `1/serving_size`. -/
theorem product_init_zero_fails (name : String) (sa : ℚ)
    (nutrients : NutritionVector) :
    Product.init name 0 sa nutrients = none ∧
    ∀ s : ℚ, s ≠ 0 →
      Product.init name s sa nutrients =
        some ⟨name, s, sa, nutrients.scale (1 / s)⟩ := by
  refine ⟨by simp [Product.init], fun s hs => by simp [Product.init, hs]⟩

/-- Witness for the amended C4 at concrete inputs. -/
theorem product_init_zero_fails_witness :
    Product.init "oil" 0 1 ⟨1, 2, 3⟩ = none ∧
    Product.init "oil" (-2) 1 ⟨1, 2, 3⟩ =
      some ⟨"oil", -2, 1, ⟨-(1/2), -1, -(3/2)⟩⟩ := by
  obtain ⟨h0, hs⟩ := product_init_zero_fails "oil" 1 ⟨1, 2, 3⟩
  refine ⟨h0, ?_⟩
  rw [hs (-2) (by norm_num)]
  norm_num [NutritionVector.scale]

/-- C2: under the documented precondition of distinct product names, the
built model has exactly one continuous variable per product with lower bound
0 and no intrinsic upper bound; exactly three equality constraints whose
per-product coefficients are the per-gram fat/carb/protein values and whose
right-hand sides are the target macros; and, per product, exactly the two
bound constraints `var ≤ serving_size * servings_available` and
`var ≥ 0`. -/
theorem buildModel_structure (products : List Product) (target : NutritionVector)
    (h : (products.map Product.name).Nodup) :
    (buildModel products target).vars =
      (products.map fun p => ⟨p.name, some 0, none⟩) ∧
    (buildModel products target).constraints =
      [⟨products.map fun p => (p.name, p.nutrition.fat), .eq, target.fat⟩,
       ⟨products.map fun p => (p.name, p.nutrition.carbs), .eq, target.carbs⟩,
       ⟨products.map fun p => (p.name, p.nutrition.protein), .eq, target.protein⟩] ++
      products.flatMap fun p =>
        [⟨[(p.name, 1)], .le, p.serving_size * p.servings_available⟩,
         ⟨[(p.name, 1)], .ge, 0⟩] := by
  rw [buildModel_eq products target h]
  exact ⟨rfl, rfl⟩

/-- Witness for C2 at a concrete two-product list. -/
theorem buildModel_structure_witness :
    (([sampleA, sampleZ].map Product.name).Nodup) ∧
    ((buildModel [sampleA, sampleZ] sampleTarget).vars =
      ([sampleA, sampleZ].map fun p => ⟨p.name, some 0, none⟩) ∧
    (buildModel [sampleA, sampleZ] sampleTarget).constraints =
      [⟨[sampleA, sampleZ].map fun p => (p.name, p.nutrition.fat), .eq,
          sampleTarget.fat⟩,
       ⟨[sampleA, sampleZ].map fun p => (p.name, p.nutrition.carbs), .eq,
          sampleTarget.carbs⟩,
       ⟨[sampleA, sampleZ].map fun p => (p.name, p.nutrition.protein), .eq,
          sampleTarget.protein⟩] ++
      [sampleA, sampleZ].flatMap fun p =>
        [⟨[(p.name, 1)], .le, p.serving_size * p.servings_available⟩,
         ⟨[(p.name, 1)], .ge, 0⟩]) :=
  ⟨by decide, buildModel_structure [sampleA, sampleZ] sampleTarget (by decide)⟩

/-- C3: for every built model (distinct names) and every assignment that
satisfies its constraints, the achieved sum of assigned grams times the
per-gram fat coefficient equals `target.fat` exactly — hence within any
tolerance — and likewise for carbs and protein; the summary vector the code
computes from the three expressions therefore equals the target. -/
theorem solved_sums_match_target (products : List Product)
    (target : NutritionVector) (a : String → ℚ)
    (h : (products.map Product.name).Nodup)
    (hsat : (buildModel products target).Satisfied a) :
    (products.map fun p => a p.name * p.nutrition.fat).sum = target.fat ∧
    (products.map fun p => a p.name * p.nutrition.carbs).sum = target.carbs ∧
    (products.map fun p => a p.name * p.nutrition.protein).sum = target.protein ∧
    summaryNutrition products a = target := by
  rw [satisfied_iff products target a h] at hsat
  obtain ⟨h1, h2, h3, -⟩ := hsat
  refine ⟨h1, h2, h3, ?_⟩
  unfold summaryNutrition
  rw [fat_sum_eq products h, carb_sum_eq products h, protein_sum_eq products h,
    value_map_name, value_map_name, value_map_name, h1, h2, h3]

/-- Witness for C3: Scenario A, one product, 50 g assigned. -/
theorem solved_sums_match_target_witness :
    (([sampleA].map Product.name).Nodup) ∧
    (buildModel [sampleA] sampleTarget).Satisfied sampleAssignment ∧
    (([sampleA].map fun p => sampleAssignment p.name * p.nutrition.fat).sum =
        sampleTarget.fat ∧
     ([sampleA].map fun p => sampleAssignment p.name * p.nutrition.carbs).sum =
        sampleTarget.carbs ∧
     ([sampleA].map fun p => sampleAssignment p.name * p.nutrition.protein).sum =
        sampleTarget.protein ∧
     summaryNutrition [sampleA] sampleAssignment = sampleTarget) := by
  have hnd : ([sampleA].map Product.name).Nodup := by simp
  have hsat : (buildModel [sampleA] sampleTarget).Satisfied sampleAssignment := by
    rw [satisfied_iff _ _ _ hnd]
    norm_num [sampleA, sampleTarget, sampleAssignment]
  exact ⟨hnd, hsat,
    solved_sums_match_target [sampleA] sampleTarget sampleAssignment hnd hsat⟩

/-- C5: a product with `servings_available = 0` is still included in the
model, with an upper-bound constraint of 0 grams; in every satisfying
assignment its grams are 0; its record is the zero row of the records list;
and no row of the rendered (positive-grams-filtered) report carries its
name. -/
theorem zero_availability_zero_grams (products : List Product)
    (target : NutritionVector) (p : Product) (a : String → ℚ)
    (h : (products.map Product.name).Nodup) (hp : p ∈ products)
    (hz : p.servings_available = 0)
    (hsat : (buildModel products target).Satisfied a) :
    ((⟨[(p.name, 1)], .le, 0⟩ : LpConstraint) ∈
        (buildModel products target).constraints) ∧
    a p.name = 0 ∧
    buildRecord p (a p.name) ∈ buildRecords products a ∧
    (buildRecord p (a p.name)).grams = 0 ∧
    ∀ r ∈ filteredReport (buildRecords products a), r.product ≠ p.name := by
  have hga : grams_available products p.name = 0 := by
    rw [grams_available_eq products h p hp, hz, mul_zero]
  have hzero : a p.name = 0 := by
    rw [satisfied_iff products target a h] at hsat
    obtain ⟨-, -, -, hb⟩ := hsat
    have := hb p hp
    rw [hz, mul_zero] at this
    exact le_antisymm this.2 this.1
  refine ⟨?_, hzero, List.mem_map.mpr ⟨p, hp, rfl⟩, hzero, ?_⟩
  · have hmem : (⟨[(p.name, 1)], .le, grams_available products p.name⟩ :
        LpConstraint) ∈ (buildModel products target).constraints := by
      unfold buildModel
      exact List.mem_append_right _ (List.mem_flatMap.mpr ⟨p, hp, by simp⟩)
    rwa [hga] at hmem
  · intro r hr
    unfold filteredReport at hr
    obtain ⟨r0, hr0, rfl⟩ := List.mem_map.mp hr
    rw [List.mem_filter] at hr0
    obtain ⟨q, hq, rfl⟩ := List.mem_map.mp hr0.1
    have hpos : 0 < a q.name := by simpa using hr0.2
    intro hname
    have : q = p := List.inj_on_of_nodup_map h hq hp (by simpa using hname)
    rw [this, hzero] at hpos
    exact lt_irrefl 0 hpos

/-- Witness for C5: Scenario A product plus a zero-availability product. -/
theorem zero_availability_zero_grams_witness :
    (([sampleA, sampleZ].map Product.name).Nodup) ∧
    sampleZ ∈ [sampleA, sampleZ] ∧
    sampleZ.servings_available = 0 ∧
    (buildModel [sampleA, sampleZ] sampleTarget).Satisfied sampleAssignment ∧
    (((⟨[(sampleZ.name, 1)], .le, 0⟩ : LpConstraint) ∈
        (buildModel [sampleA, sampleZ] sampleTarget).constraints) ∧
     sampleAssignment sampleZ.name = 0 ∧
     buildRecord sampleZ (sampleAssignment sampleZ.name) ∈
        buildRecords [sampleA, sampleZ] sampleAssignment ∧
     (buildRecord sampleZ (sampleAssignment sampleZ.name)).grams = 0 ∧
     ∀ r ∈ filteredReport (buildRecords [sampleA, sampleZ] sampleAssignment),
        r.product ≠ sampleZ.name) := by
  have hnd : (([sampleA, sampleZ].map Product.name)).Nodup := by decide
  have hmem : sampleZ ∈ [sampleA, sampleZ] := by simp
  have hz : sampleZ.servings_available = 0 := rfl
  have hza : sampleAssignment "zeta" = 0 := by
    unfold sampleAssignment
    rw [if_neg (by decide)]
  have haa : sampleAssignment "alpha" = 50 := by
    unfold sampleAssignment
    rw [if_pos rfl]
  have hsat : (buildModel [sampleA, sampleZ] sampleTarget).Satisfied
      sampleAssignment := by
    rw [satisfied_iff _ _ _ hnd]
    norm_num [sampleA, sampleZ, sampleTarget, haa, hza]
  exact ⟨hnd, hmem, hz, hsat,
    zero_availability_zero_grams [sampleA, sampleZ] sampleTarget sampleZ
      sampleAssignment hnd hmem hz hsat⟩

/-- C7: feasibility is monotone in availability — if the built model admits a
satisfying assignment, then raising one product's `servings_available` (its
`serving_size` being nonnegative, per the data model) while keeping everything
else fixed yields a model that still admits a satisfying assignment. -/
theorem feasibility_monotone (l1 l2 : List Product) (p : Product) (sa2 : ℚ)
    (target : NutritionVector) (hs : 0 ≤ p.serving_size)
    (hsa : p.servings_available ≤ sa2)
    (h : ((l1 ++ p :: l2).map Product.name).Nodup)
    (hfeas : (buildModel (l1 ++ p :: l2) target).Feasible) :
    (buildModel (l1 ++ (⟨p.name, p.serving_size, sa2, p.nutrition⟩ : Product)
      :: l2) target).Feasible := by
  obtain ⟨a, hsat⟩ := hfeas
  refine ⟨a, ?_⟩
  have h2 : ((l1 ++ (⟨p.name, p.serving_size, sa2, p.nutrition⟩ : Product)
      :: l2).map Product.name).Nodup := by
    have : (l1 ++ (⟨p.name, p.serving_size, sa2, p.nutrition⟩ : Product)
        :: l2).map Product.name = (l1 ++ p :: l2).map Product.name := by
      simp
    rw [this]
    exact h
  rw [satisfied_iff _ _ _ h2]
  rw [satisfied_iff _ _ _ h] at hsat
  obtain ⟨h1, hc, h3, hb⟩ := hsat
  refine ⟨by simpa using h1, by simpa using hc, by simpa using h3, ?_⟩
  intro q hq
  rcases List.mem_append.mp hq with hq1 | hq2
  · exact hb q (List.mem_append_left _ hq1)
  · rcases List.mem_cons.mp hq2 with rfl | hq3
    · have hpb := hb p (List.mem_append_right _ (List.mem_cons_self _ _))
      exact ⟨hpb.1, le_trans hpb.2 (mul_le_mul_of_nonneg_left hsa hs)⟩
    · exact hb q (List.mem_append_right _ (List.mem_cons_of_mem _ hq3))

/-- Witness for C7: Scenario A is feasible; doubling the availability of
`alpha` keeps it feasible. -/
theorem feasibility_monotone_witness :
    (0 : ℚ) ≤ sampleA.serving_size ∧
    sampleA.servings_available ≤ 20 ∧
    ((([] : List Product) ++ sampleA :: [sampleZ]).map Product.name).Nodup ∧
    (buildModel (([] : List Product) ++ sampleA :: [sampleZ])
      sampleTarget).Feasible ∧
    (buildModel (([] : List Product) ++
      (⟨sampleA.name, sampleA.serving_size, 20, sampleA.nutrition⟩ : Product)
      :: [sampleZ]) sampleTarget).Feasible := by
  have hs : (0 : ℚ) ≤ sampleA.serving_size := by norm_num [sampleA]
  have hsa : sampleA.servings_available ≤ 20 := by norm_num [sampleA]
  have hnd : ((([] : List Product) ++ sampleA :: [sampleZ]).map
      Product.name).Nodup := by decide
  have hza : sampleAssignment "zeta" = 0 := by
    unfold sampleAssignment
    rw [if_neg (by decide)]
  have haa : sampleAssignment "alpha" = 50 := by
    unfold sampleAssignment
    rw [if_pos rfl]
  have hfeas : (buildModel (([] : List Product) ++ sampleA :: [sampleZ])
      sampleTarget).Feasible := by
    refine ⟨sampleAssignment, ?_⟩
    rw [satisfied_iff _ _ _ hnd]
    norm_num [sampleA, sampleZ, sampleTarget, haa, hza]
  exact ⟨hs, hsa, hnd, hfeas,
    feasibility_monotone [] [sampleZ] sampleA 20 sampleTarget hs hsa hnd hfeas⟩

/-- C10: the per-product report filters on the exact (unrounded) grams before
any rounding: the rendered report is exactly the rounding, in original input
order, of the records of the products with strictly positive assigned grams;
a product with `0 < grams < 0.005` is kept and displayed as `0.00`; a product
with `grams ≤ 0` contributes no row. -/
theorem report_filters_before_rounding (products : List Product)
    (a : String → ℚ) (h : (products.map Product.name).Nodup) :
    (filteredReport (buildRecords products a) =
      (products.filter fun p => 0 < a p.name).map fun p =>
        roundRecord (buildRecord p (a p.name))) ∧
    (∀ p ∈ products, 0 < a p.name → a p.name < 1/200 →
      roundRecord (buildRecord p (a p.name)) ∈
          filteredReport (buildRecords products a) ∧
        (roundRecord (buildRecord p (a p.name))).grams = 0) ∧
    (∀ p ∈ products, a p.name ≤ 0 →
      ∀ r ∈ filteredReport (buildRecords products a), r.product ≠ p.name) := by
  have hrep : filteredReport (buildRecords products a) =
      (products.filter fun p => 0 < a p.name).map fun p =>
        roundRecord (buildRecord p (a p.name)) := by
    unfold filteredReport buildRecords
    rw [List.filter_map, List.map_map]
    rfl
  refine ⟨hrep, fun p hp h0 hsm => ⟨?_, ?_⟩, fun p hp hle r hr => ?_⟩
  · rw [hrep]
    exact List.mem_map.mpr
      ⟨p, List.mem_filter.mpr ⟨hp, by simpa using h0⟩, rfl⟩
  · show round2 (a p.name) = 0
    exact round2_eq_zero _ (le_of_lt h0) hsm
  · unfold filteredReport at hr
    obtain ⟨r0, hr0, rfl⟩ := List.mem_map.mp hr
    rw [List.mem_filter] at hr0
    obtain ⟨q, hq, rfl⟩ := List.mem_map.mp hr0.1
    have hpos : 0 < a q.name := by simpa using hr0.2
    intro hname
    have : q = p := List.inj_on_of_nodup_map h hq hp (by simpa using hname)
    rw [this] at hpos
    exact absurd (lt_of_lt_of_le hpos hle) (lt_irrefl 0)

/-- Witness for C10: three products with grams 50, 1/400 (kept, shown as
0.00) and 0 (dropped). -/
theorem report_filters_before_rounding_witness :
    ((tinyProducts.map Product.name).Nodup) ∧
    ((filteredReport (buildRecords tinyProducts tinyAssignment) =
      (tinyProducts.filter fun p => 0 < tinyAssignment p.name).map fun p =>
        roundRecord (buildRecord p (tinyAssignment p.name))) ∧
    (∀ p ∈ tinyProducts, 0 < tinyAssignment p.name →
      tinyAssignment p.name < 1/200 →
      roundRecord (buildRecord p (tinyAssignment p.name)) ∈
          filteredReport (buildRecords tinyProducts tinyAssignment) ∧
        (roundRecord (buildRecord p (tinyAssignment p.name))).grams = 0) ∧
    (∀ p ∈ tinyProducts, tinyAssignment p.name ≤ 0 →
      ∀ r ∈ filteredReport (buildRecords tinyProducts tinyAssignment),
        r.product ≠ p.name)) :=
  ⟨by decide, report_filters_before_rounding tinyProducts tinyAssignment
    (by decide)⟩

/-- C1 (behavior of the code, not of the spec's requirement): with the
external solver reporting `Infeasible` on the spec's Scenario B input,
`optimize` nonetheless proceeds to interpretation — it reads the
decision-variable values and produces a per-product record, a report and a
summary from them, with no branch on the status. -/
theorem infeasible_status_still_interpreted :
    (optimize (fun _ => ⟨.Infeasible, fun _ => 0⟩) [sampleA]
        ⟨100, 10, 5/2⟩).status = .Infeasible ∧
    (optimize (fun _ => ⟨.Infeasible, fun _ => 0⟩) [sampleA]
        ⟨100, 10, 5/2⟩).records = [buildRecord sampleA 0] ∧
    (optimize (fun _ => ⟨.Infeasible, fun _ => 0⟩) [sampleA]
        ⟨100, 10, 5/2⟩).summary = ⟨0, 0, 0⟩ := by
  refine ⟨rfl, rfl, ?_⟩
  show summaryNutrition [sampleA] (fun _ => 0) = ⟨0, 0, 0⟩
  have hnd : ([sampleA].map Product.name).Nodup := by simp
  unfold summaryNutrition
  rw [fat_sum_eq _ hnd, carb_sum_eq _ hnd, protein_sum_eq _ hnd,
    value_map_name, value_map_name, value_map_name]
  norm_num
